import Mathlib

/-!
Verification development for the F1 reaction game's timing/state core.

The definitions below are a shallow embedding of the TypeScript sources:
real-number quantities (distances, speeds, millisecond timestamps) are
modelled as rationals, the JavaScript Map/Set bookkeeping of the track
manager is modelled as insertion-ordered lists with derived keys, and the
implicit clock reads (performance.now()) are made explicit arguments.
-/

namespace F1

/-- Kind of a player control / checkpoint: brake or acceleration.
In the source the checkpoint carries the strings brake_point /
straight_point and the control carries brake / acceleration; the two
namings are in bijection and are collapsed into one inductive here. -/
inductive CtrlKind where
  | brake
  | acceleration
deriving DecidableEq, Repr

/-- Kind of a speed modifier, from SpeedModifier.type in game.ts. -/
inductive ModKind where
  | increase
  | decrease
deriving DecidableEq, Repr

/-- SpeedModifier record from game.ts: type, amount, startTime, duration. -/
structure SpeedModifier where
  mtype : ModKind
  amount : ℚ
  startTime : ℚ
  duration : ℚ
deriving DecidableEq, Repr

/-- Car record from game.ts. -/
structure Car where
  distanceCovered : ℚ
  currentSpeed : ℚ
  baseSpeed : ℚ
  speedModifiers : List SpeedModifier
deriving DecidableEq, Repr

/-- Track record from game.ts (raceTime omitted: never read by the core). -/
structure Track where
  distance : ℚ
  averageSpeed : ℚ
  brakePoints : List ℚ
  straightPoints : List ℚ
  speedIncrease : ℚ
  pointDuration : ℚ
  speedDecrease : ℚ
deriving DecidableEq, Repr

/-- CheckpointEvent record from game.ts. -/
structure CheckpointEvent where
  ctype : CtrlKind
  distance : ℚ
  activatedAt : ℚ
  duration : ℚ
deriving DecidableEq, Repr

/-- ControlState record from game.ts. -/
structure ControlState where
  isActive : Bool
  activatedAt : ℚ
  duration : ℚ
deriving DecidableEq, Repr

/-! ## CarManager (src/shared/types/car.ts)

Each method of the mutable CarManager class becomes a function from the
old car (plus the current clock reading) to the new car. -/

/-- CarManager.updatePosition: add currentSpeed times deltaTime seconds to
the distance covered, clamped by Math.min to the track distance. -/
def updatePosition (car : Car) (deltaTime trackDistance : ℚ) : Car :=
  { car with
    distanceCovered :=
      min (car.distanceCovered + car.currentSpeed * (deltaTime / 1000)) trackDistance }

/-- Survival test used by CarManager.updateCurrentSpeed's filter:
a modifier is kept while (currentTime - startTime) < duration. -/
def modAlive (now : ℚ) (m : SpeedModifier) : Bool :=
  decide (now - m.startTime < m.duration)

/-- One step of CarManager.updateCurrentSpeed's accumulation loop:
an increase adds its amount; a decrease subtracts under Math.max(0, _),
so the floor at 0 is applied at every decrease step, not once at the end. -/
def applyModifier (s : ℚ) (m : SpeedModifier) : ℚ :=
  match m.mtype with
  | ModKind.increase => s + m.amount
  | ModKind.decrease => max 0 (s - m.amount)

/-- CarManager.updateCurrentSpeed: prune expired modifiers, then fold the
survivors over the base speed in list (insertion) order. -/
def updateCurrentSpeed (car : Car) (now : ℚ) : Car :=
  let alive := car.speedModifiers.filter (modAlive now)
  { car with
    speedModifiers := alive
    currentSpeed := alive.foldl applyModifier car.baseSpeed }

/-- CarManager.addSpeedModifier: push a new modifier with startTime the
current clock reading, then recompute the speed. The source reads
performance.now() once in addSpeedModifier and again inside
updateCurrentSpeed; the two adjacent reads are modelled as the same now.
No validation of amount or duration is performed. -/
def addSpeedModifier (car : Car) (mtype : ModKind) (amount duration now : ℚ) : Car :=
  updateCurrentSpeed
    { car with speedModifiers := car.speedModifiers ++ [⟨mtype, amount, now, duration⟩] }
    now

/-- CarManager.isRaceComplete. -/
def isRaceComplete (car : Car) (trackDistance : ℚ) : Bool :=
  decide (car.distanceCovered ≥ trackDistance)

/-- CarManager.reset. -/
def carReset (baseSpeed : ℚ) : Car :=
  ⟨0, baseSpeed, baseSpeed, []⟩

/-! ## Validation (src/shared/validation) -/

/-- Boolean test for a list being in ascending (non-strict) order; this is
what comparing an array with its numerically sorted copy checks in the
source (arraysEqual of arr and its sorted copy). -/
def sortedLe : List ℚ → Bool
  | [] => true
  | [_] => true
  | a :: b :: rest => decide (a ≤ b) && sortedLe (b :: rest)

/-- validateTrack from gameValidation.ts: the sequence of thrown
GameValidationErrors, in source order, as an Except. Note the bounds test
rejects exactly points below 0 or at least distance, so a point equal to 0
passes, and no duplicate check is performed (equal neighbours count as
sorted). -/
def validateTrack (t : Track) : Except String Unit :=
  if t.distance ≤ 0 then Except.error "Track distance must be positive"
  else if t.averageSpeed ≤ 0 then Except.error "Average speed must be positive"
  else if t.speedIncrease ≤ 0 then Except.error "Speed increase must be positive"
  else if t.speedDecrease ≤ 0 then Except.error "Speed decrease must be positive"
  else if t.pointDuration ≤ 0 then Except.error "Point duration must be positive"
  else if t.brakePoints.any (fun p => decide (p < 0) || decide (p ≥ t.distance)) then
    Except.error "Brake point is outside track bounds"
  else if t.straightPoints.any (fun p => decide (p < 0) || decide (p ≥ t.distance)) then
    Except.error "Straight point is outside track bounds"
  else if !sortedLe t.brakePoints then
    Except.error "Brake points must be sorted in ascending order"
  else if !sortedLe t.straightPoints then
    Except.error "Straight points must be sorted in ascending order"
  else Except.ok ()

/-- validateCheckpointArray from checkpointValidation.ts: empty check,
bounds check (again rejecting points below 0 or at least trackDistance,
so 0 passes), duplicate check via Set size, then sorted-order check. -/
def validateCheckpointArray (checkpoints : List ℚ) (trackDistance : ℚ) :
    Except String Unit :=
  if checkpoints = [] then Except.error "points array cannot be empty"
  else if checkpoints.any (fun c => decide (c < 0) || decide (c ≥ trackDistance)) then
    Except.error "point is outside track bounds"
  else if !(decide checkpoints.Nodup) then Except.error "points array contains duplicates"
  else if !sortedLe checkpoints then
    Except.error "points must be sorted in ascending order"
  else Except.ok ()

/-! ## TrackManager (src/shared/types/track.ts)

The class holds a Map of active checkpoints and a Set of processed
checkpoint keys, both keyed by the string kind_distance. JavaScript Maps
iterate in insertion order and the number-to-string rendering inside the
key is injective, so the Map is modelled as an insertion-ordered list of
CheckpointEvents whose key is the pair (ctype, distance), and the Set as a
list of such pairs. -/

/-- Composite key of a checkpoint, standing for the string kind_distance. -/
def ckey (e : CheckpointEvent) : CtrlKind × ℚ :=
  (e.ctype, e.distance)

/-- TrackManager state: track config, activeCheckpoints Map (insertion
order), processedCheckpoints Set. -/
structure TrackManager where
  track : Track
  activeCheckpoints : List CheckpointEvent
  processedCheckpoints : List (CtrlKind × ℚ)
deriving DecidableEq, Repr

/-- Fresh TrackManager, as built by the constructor. -/
def initTM (track : Track) : TrackManager :=
  ⟨track, [], []⟩

/-- Membership of a key in the activeCheckpoints Map. -/
def activeHas (tm : TrackManager) (k : CtrlKind × ℚ) : Bool :=
  tm.activeCheckpoints.any (fun e => decide (ckey e = k))

/-- Common loop body of checkBrakePoints and checkStraightPoints: walk the
configured points in array order; at the first point the car has reached
whose key is in neither the active Map nor the processed Set, build the
event, insert it into both structures and return it; otherwise keep
scanning, returning null at the end. -/
def checkPointsAux (tm : TrackManager) (kind : CtrlKind) (carDistance now : ℚ) :
    List ℚ → Option CheckpointEvent × TrackManager
  | [] => (none, tm)
  | p :: rest =>
    if carDistance ≥ p ∧ activeHas tm (kind, p) = false ∧ (kind, p) ∉ tm.processedCheckpoints
    then
      let e : CheckpointEvent := ⟨kind, p, now, tm.track.pointDuration⟩
      (some e,
        { tm with
          activeCheckpoints := tm.activeCheckpoints ++ [e]
          processedCheckpoints := (kind, p) :: tm.processedCheckpoints })
    else checkPointsAux tm kind carDistance now rest

/-- TrackManager.checkBrakePoints. -/
def checkBrakePoints (tm : TrackManager) (carDistance now : ℚ) :
    Option CheckpointEvent × TrackManager :=
  checkPointsAux tm CtrlKind.brake carDistance now tm.track.brakePoints

/-- TrackManager.checkStraightPoints. -/
def checkStraightPoints (tm : TrackManager) (carDistance now : ℚ) :
    Option CheckpointEvent × TrackManager :=
  checkPointsAux tm CtrlKind.acceleration carDistance now tm.track.straightPoints

/-- Pair of per-kind control states as returned by getControlStates. -/
structure ControlStates where
  brake : ControlState
  acceleration : ControlState
deriving DecidableEq, Repr

/-- Select the state of one kind from a ControlStates record. -/
def ControlStates.get (cs : ControlStates) : CtrlKind → ControlState
  | CtrlKind.brake => cs.brake
  | CtrlKind.acceleration => cs.acceleration

/-- Body of getControlStates's second loop: a still-unexpired checkpoint
overwrites the state of its kind, so the last such checkpoint in Map
(insertion) order wins. -/
def applyCS (now : ℚ) (st : ControlStates) (e : CheckpointEvent) : ControlStates :=
  if now - e.activatedAt < e.duration then
    match e.ctype with
    | CtrlKind.brake => { st with brake := ⟨true, e.activatedAt, e.duration⟩ }
    | CtrlKind.acceleration => { st with acceleration := ⟨true, e.activatedAt, e.duration⟩ }
  else st

/-- Checkpoint survival test used by getControlStates's cleanup pass:
expired means timeElapsed ≥ duration. -/
def cpAlive (now : ℚ) (e : CheckpointEvent) : Bool :=
  decide (now - e.activatedAt < e.duration)

/-- TrackManager.getControlStates: delete expired checkpoints from the
Map, then fold the survivors into a zeroed pair of control states. Returns
the states together with the mutated manager. -/
def getControlStates (tm : TrackManager) (now : ℚ) : ControlStates × TrackManager :=
  let cleaned := tm.activeCheckpoints.filter (cpAlive now)
  (cleaned.foldl (applyCS now) ⟨⟨false, 0, 0⟩, ⟨false, 0, 0⟩⟩,
    { tm with activeCheckpoints := cleaned })

/-- First active checkpoint of the given kind in Map iteration order; this
is the checkpoint the loops of getRemainingDuration and isControlActive
return on. -/
def findKind : List CheckpointEvent → CtrlKind → Option CheckpointEvent
  | [], _ => none
  | e :: rest, k => if e.ctype = k then some e else findKind rest k

/-- TrackManager.getRemainingDuration: Math.max(0, duration - elapsed) of
the first active checkpoint of the kind, else 0. Performs no cleanup. -/
def getRemainingDuration (tm : TrackManager) (k : CtrlKind) (now : ℚ) : ℚ :=
  match findKind tm.activeCheckpoints k with
  | some e => max 0 (e.duration - (now - e.activatedAt))
  | none => 0

/-- TrackManager.isControlActive: whether the first active checkpoint of
the kind is unexpired, else false. Performs no cleanup. -/
def isControlActive (tm : TrackManager) (k : CtrlKind) (now : ℚ) : Bool :=
  match findKind tm.activeCheckpoints k with
  | some e => decide (now - e.activatedAt < e.duration)
  | none => false

/-- TrackManager.deactivateControl: delete every active checkpoint of the
kind from the Map; they stay in the processed Set. -/
def deactivateControl (tm : TrackManager) (k : CtrlKind) : TrackManager :=
  { tm with activeCheckpoints := tm.activeCheckpoints.filter (fun e => decide (e.ctype ≠ k)) }

/-- TrackManager.reset: clear both the Map and the Set. -/
def resetTM (tm : TrackManager) : TrackManager :=
  { tm with activeCheckpoints := [], processedCheckpoints := [] }

/-! ## Checkpoint-arrival traces

For the at-most-once property the state-mutating TrackManager calls are
collected into an operation language, and a run collects every checkpoint
event the manager returns as newly fired. reset is deliberately absent:
the property is about call sequences with no reset in between. -/

/-- One state-mutating TrackManager call. The pure queries
getRemainingDuration and isControlActive do not change the state and need
no operation. -/
inductive TMOp where
  | checkBrake (pos now : ℚ)
  | checkStraight (pos now : ℚ)
  | controlStates (now : ℚ)
  | deactivate (k : CtrlKind)

/-- Effect of one TrackManager call: new state plus the event returned as
newly fired, if any. -/
def stepTM (tm : TrackManager) : TMOp → TrackManager × Option CheckpointEvent
  | TMOp.checkBrake pos now =>
    let r := checkBrakePoints tm pos now
    (r.2, r.1)
  | TMOp.checkStraight pos now =>
    let r := checkStraightPoints tm pos now
    (r.2, r.1)
  | TMOp.controlStates now => ((getControlStates tm now).2, none)
  | TMOp.deactivate k => (deactivateControl tm k, none)

/-- Run a sequence of TrackManager calls, collecting every newly fired
event in order. -/
def runTM (tm : TrackManager) : List TMOp → TrackManager × List CheckpointEvent
  | [] => (tm, [])
  | op :: ops =>
    let r := stepTM tm op
    let rest := runTM r.1 ops
    (rest.1, r.2.toList ++ rest.2)

/-! ## Game-state hook (src/client/hooks/useGameState.ts)

handleControlInput reads the React game state (status, activeControls and
the track config copy), the shared CarManager and TrackManager instances,
the input-cooldown ref and the active-penalty ref. All of these are
gathered into one record. The active-penalty Set entry, which the source
removes through a 1000 ms setTimeout scheduled when the penalty is
applied, is modelled by storing the application time and treating the
entry as present strictly before applicationTime + 1000. -/

inductive GameStatus where
  | idle
  | running
  | finished
deriving DecidableEq, Repr

/-- One value per control kind, for the cooldown and penalty refs. -/
structure KindMap (α : Type) where
  brake : α
  acceleration : α
deriving DecidableEq, Repr

/-- Read the entry of one kind. -/
def KindMap.get (m : KindMap α) : CtrlKind → α
  | CtrlKind.brake => m.brake
  | CtrlKind.acceleration => m.acceleration

/-- Replace the entry of one kind. -/
def KindMap.set (m : KindMap α) : CtrlKind → α → KindMap α
  | CtrlKind.brake, v => { m with brake := v }
  | CtrlKind.acceleration, v => { m with acceleration := v }

/-- Combined state read and written by handleControlInput: the GameState
fields it uses, the two manager instances and the two refs. -/
structure HookState where
  status : GameStatus
  track : Track
  car : Car
  tm : TrackManager
  activeControls : ControlStates
  cooldown : KindMap ℚ
  penaltyAppliedAt : KindMap (Option ℚ)
deriving DecidableEq, Repr

/-- Whether activePenaltiesRef still holds the kind at time t: a penalty
applied at t0 is removed by its setTimeout 1000 ms later. -/
def penaltyActive (s : HookState) (k : CtrlKind) (t : ℚ) : Bool :=
  match s.penaltyAppliedAt.get k with
  | some t0 => decide (t < t0 + 1000)
  | none => false

/-- handleControlInput from useGameState.ts. Checks the 100 ms cooldown,
then the running status; in the green branch computes the remaining
window, the reaction time against the React-state activatedAt, and the
bonus multiplier, adds the increase modifier, deactivates the control and
refreshes the control states; in the red branch adds the fixed 1000 ms
decrease modifier unless a penalty for the kind is still active. -/
def handleControlInput (s : HookState) (k : CtrlKind) (currentTime : ℚ) : HookState :=
  if currentTime - s.cooldown.get k < 100 then s
  else if s.status ≠ GameStatus.running then s
  else if isControlActive s.tm k currentTime then
    let remainingDuration := getRemainingDuration s.tm k currentTime
    let reactionTime := currentTime - (s.activeControls.get k).activatedAt
    let speedBonus := s.track.speedIncrease *
      (if reactionTime ≤ 200 then 3/2 else if reactionTime ≤ 500 then 6/5 else 1)
    let preciseRemainingDuration := max 0 remainingDuration
    let car := addSpeedModifier s.car ModKind.increase speedBonus
      preciseRemainingDuration currentTime
    let tm := deactivateControl s.tm k
    let r := getControlStates tm currentTime
    { s with
      car := car
      tm := r.2
      activeControls := r.1
      cooldown := s.cooldown.set k currentTime }
  else if penaltyActive s k currentTime then s
  else
    { s with
      car := addSpeedModifier s.car ModKind.decrease s.track.speedDecrease 1000 currentTime
      penaltyAppliedAt := s.penaltyAppliedAt.set k (some currentTime)
      cooldown := s.cooldown.set k currentTime }

/-! ## Spec-side speed formula and sum helpers -/

/-- Sum of the amounts of the increase modifiers of a list. -/
def incSum : List SpeedModifier → ℚ
  | [] => 0
  | m :: rest => (if m.mtype = ModKind.increase then m.amount else 0) + incSum rest

/-- Sum of the amounts of the decrease modifiers of a list. -/
def decSum : List SpeedModifier → ℚ
  | [] => 0
  | m :: rest => (if m.mtype = ModKind.decrease then m.amount else 0) + decSum rest

/-- Modelled from the spec's words, for comparison with the code's fold:
current speed as max(0, baseSpeed plus the increase amounts minus the
decrease amounts) over the unexpired modifiers, with one floor at 0
applied to the total. -/
def specCurrentSpeed (car : Car) (now : ℚ) : ℚ :=
  let alive := car.speedModifiers.filter (modAlive now)
  max 0 (car.baseSpeed + incSum alive - decSum alive)

theorem incSum_append (a b : List SpeedModifier) :
    incSum (a ++ b) = incSum a + incSum b := by
  induction a with
  | nil => simp [incSum]
  | cons m rest ih => simp [incSum, ih]; ring

theorem decSum_append (a b : List SpeedModifier) :
    decSum (a ++ b) = decSum a + decSum b := by
  induction a with
  | nil => simp [decSum]
  | cons m rest ih => simp [decSum, ih]; ring

theorem incSum_nonneg (l : List SpeedModifier) (h : ∀ m ∈ l, 0 ≤ m.amount) :
    0 ≤ incSum l := by
  induction l with
  | nil => simp [incSum]
  | cons m rest ih =>
    have hm := h m (List.mem_cons_self m rest)
    have hrest := ih (fun x hx => h x (List.mem_cons_of_mem m hx))
    unfold incSum
    split <;> linarith

theorem decSum_nonneg (l : List SpeedModifier) (h : ∀ m ∈ l, 0 ≤ m.amount) :
    0 ≤ decSum l := by
  induction l with
  | nil => simp [decSum]
  | cons m rest ih =>
    have hm := h m (List.mem_cons_self m rest)
    have hrest := ih (fun x hx => h x (List.mem_cons_of_mem m hx))
    unfold decSum
    split <;> linarith

/-- The per-decrease clamping in the fold can only raise the result above
the spec's single-floor signed sum. -/
theorem foldl_applyModifier_ge (l : List SpeedModifier) (s : ℚ) :
    s + incSum l - decSum l ≤ l.foldl applyModifier s := by
  induction l generalizing s with
  | nil => simp [incSum, decSum]
  | cons m rest ih =>
    match h : m.mtype with
    | ModKind.increase =>
      have := ih (s + m.amount)
      simp only [List.foldl_cons, applyModifier, h, incSum, decSum]
      simp only [reduceCtorEq, if_true, if_false, ite_true, ite_false]
      linarith
    | ModKind.decrease =>
      have := ih (max 0 (s - m.amount))
      have hmax : s - m.amount ≤ max 0 (s - m.amount) := le_max_right _ _
      simp only [List.foldl_cons, applyModifier, h, incSum, decSum]
      simp only [reduceCtorEq, if_true, if_false, ite_true, ite_false]
      linarith

/-- The fold never leaves the nonnegatives when it starts there and all
amounts are nonnegative. -/
theorem foldl_applyModifier_nonneg (l : List SpeedModifier) (s : ℚ)
    (hs : 0 ≤ s) (h : ∀ m ∈ l, 0 ≤ m.amount) :
    0 ≤ l.foldl applyModifier s := by
  induction l generalizing s with
  | nil => simpa
  | cons m rest ih =>
    have hm := h m (List.mem_cons_self m rest)
    have hrest : ∀ x ∈ rest, 0 ≤ x.amount := fun x hx => h x (List.mem_cons_of_mem m hx)
    match hmt : m.mtype with
    | ModKind.increase =>
      simp only [List.foldl_cons, applyModifier, hmt]
      exact ih (s + m.amount) (by linarith) hrest
    | ModKind.decrease =>
      simp only [List.foldl_cons, applyModifier, hmt]
      exact ih (max 0 (s - m.amount)) (le_max_left _ _) hrest

/-- A run of increase modifiers folds to plain addition of their sum. -/
theorem foldl_applyModifier_incs (l : List SpeedModifier) (s : ℚ)
    (h : ∀ m ∈ l, m.mtype = ModKind.increase) :
    l.foldl applyModifier s = s + incSum l := by
  induction l generalizing s with
  | nil => simp [incSum]
  | cons m rest ih =>
    have hm := h m (List.mem_cons_self m rest)
    have hrest : ∀ x ∈ rest, x.mtype = ModKind.increase :=
      fun x hx => h x (List.mem_cons_of_mem m hx)
    simp only [List.foldl_cons, applyModifier, hm, incSum, eq_self_iff_true, ite_true]
    rw [ih (s + m.amount) hrest]
    ring

/-- A run of decrease modifiers starting from a nonnegative value folds to
the single-floor form: clamping midway and clamping the total agree when
no increase can come after a clamp. -/
theorem foldl_applyModifier_decs (l : List SpeedModifier) (s : ℚ)
    (hs : 0 ≤ s)
    (h : ∀ m ∈ l, m.mtype = ModKind.decrease)
    (hamt : ∀ m ∈ l, 0 ≤ m.amount) :
    l.foldl applyModifier s = max 0 (s - decSum l) := by
  induction l generalizing s with
  | nil => simp [decSum, hs, max_eq_right]
  | cons m rest ih =>
    have hm := h m (List.mem_cons_self m rest)
    have hma := hamt m (List.mem_cons_self m rest)
    have hrest : ∀ x ∈ rest, x.mtype = ModKind.decrease :=
      fun x hx => h x (List.mem_cons_of_mem m hx)
    have hresta : ∀ x ∈ rest, 0 ≤ x.amount :=
      fun x hx => hamt x (List.mem_cons_of_mem m hx)
    have hds : 0 ≤ decSum rest := decSum_nonneg rest hresta
    simp only [List.foldl_cons, applyModifier, hm, decSum, eq_self_iff_true, ite_true]
    rcases le_or_lt 0 (s - m.amount) with hcase | hcase
    · rw [max_eq_right hcase, ih (s - m.amount) hcase hrest hresta]
      ring_nf
    · rw [max_eq_left (by linarith), ih 0 le_rfl hrest hresta]
      have h1 : (0:ℚ) - decSum rest ≤ 0 := by linarith
      have h2 : s - (m.amount + decSum rest) ≤ 0 := by linarith
      rw [max_eq_left h1, max_eq_left h2]

theorem incSum_of_decs (l : List SpeedModifier)
    (h : ∀ m ∈ l, m.mtype = ModKind.decrease) : incSum l = 0 := by
  induction l with
  | nil => rfl
  | cons m rest ih =>
    have hm := h m (List.mem_cons_self m rest)
    have hrest := ih (fun x hx => h x (List.mem_cons_of_mem m hx))
    simp [incSum, hm, hrest]

theorem decSum_of_incs (l : List SpeedModifier)
    (h : ∀ m ∈ l, m.mtype = ModKind.increase) : decSum l = 0 := by
  induction l with
  | nil => rfl
  | cons m rest ih =>
    have hm := h m (List.mem_cons_self m rest)
    have hrest := ih (fun x hx => h x (List.mem_cons_of_mem m hx))
    simp [decSum, hm, hrest]

/-- Example car for the C2 statements: a decrease of 20 inserted before an
increase of 5 on base speed 10, all unexpired at time 0. -/
def carDecFirst : Car :=
  ⟨0, 10, 10, [⟨ModKind.decrease, 20, 0, 1000⟩, ⟨ModKind.increase, 5, 0, 1000⟩]⟩

/-- Example car for the C2 statements: the same two modifiers in the
opposite insertion order. -/
def carIncFirst : Car :=
  ⟨0, 10, 10, [⟨ModKind.increase, 5, 0, 1000⟩, ⟨ModKind.decrease, 20, 0, 1000⟩]⟩

/-- C2 counterexample: updateCurrentSpeed clamps at every decrease step,
not once at the total. With base 10 and unexpired modifiers decrease 20
then increase 5 the code computes 5, while the claimed single-floor
formula gives max(0, 10 + 5 - 20) = 0; swapping the insertion order
changes the code's result to 0, so the result also depends on the order
in which the modifiers were added. -/
theorem updateCurrentSpeed_single_floor_counterexample :
    (updateCurrentSpeed carDecFirst 0).currentSpeed = 5 ∧
    specCurrentSpeed carDecFirst 0 = 0 ∧
    (updateCurrentSpeed carIncFirst 0).currentSpeed = 0 ∧
    carDecFirst.speedModifiers.Perm carIncFirst.speedModifiers := by
  refine ⟨?_, ?_, ?_, ?_⟩
  · norm_num [updateCurrentSpeed, carDecFirst, modAlive, applyModifier]
  · simp [specCurrentSpeed, carDecFirst, modAlive, incSum, decSum]
    norm_num
  · norm_num [updateCurrentSpeed, carIncFirst, modAlive, applyModifier]
  · simpa [carDecFirst, carIncFirst] using List.Perm.swap _ _ _

/-- C2 amended: after updateCurrentSpeed the modifier collection holds
exactly the modifiers with now - startTime < duration, and the current
speed is the left-to-right fold over them starting from the base speed in
which each increase adds its amount and each decrease subtracts under a
floor at 0 applied at that step. This fold is at least the claimed
single-floor value max(0, base + sum of increases - sum of decreases) and
coincides with it whenever every surviving increase precedes every
surviving decrease, but in general it is order-dependent. -/
theorem updateCurrentSpeed_fold (car : Car) (now : ℚ)
    (hbase : 0 ≤ car.baseSpeed)
    (hamt : ∀ m ∈ car.speedModifiers, 0 ≤ m.amount) :
    (updateCurrentSpeed car now).speedModifiers =
      car.speedModifiers.filter (modAlive now) ∧
    (updateCurrentSpeed car now).currentSpeed =
      (car.speedModifiers.filter (modAlive now)).foldl applyModifier car.baseSpeed ∧
    specCurrentSpeed car now ≤ (updateCurrentSpeed car now).currentSpeed ∧
    (∀ incs decs, car.speedModifiers.filter (modAlive now) = incs ++ decs →
      (∀ m ∈ incs, m.mtype = ModKind.increase) →
      (∀ m ∈ decs, m.mtype = ModKind.decrease) →
      (updateCurrentSpeed car now).currentSpeed = specCurrentSpeed car now) := by
  have hsub : ∀ m ∈ car.speedModifiers.filter (modAlive now), 0 ≤ m.amount :=
    fun m hm => hamt m (List.mem_of_mem_filter hm)
  refine ⟨rfl, rfl, ?_, ?_⟩
  · have h0 : 0 ≤ (car.speedModifiers.filter (modAlive now)).foldl applyModifier car.baseSpeed :=
      foldl_applyModifier_nonneg _ _ hbase hsub
    have h1 := foldl_applyModifier_ge (car.speedModifiers.filter (modAlive now)) car.baseSpeed
    simp only [specCurrentSpeed, updateCurrentSpeed]
    exact max_le h0 h1
  · intro incs decs heq hinc hdec
    have hincamt : ∀ m ∈ incs, 0 ≤ m.amount := by
      intro m hm
      exact hsub m (heq ▸ List.mem_append_left decs hm)
    have hdecamt : ∀ m ∈ decs, 0 ≤ m.amount := by
      intro m hm
      exact hsub m (heq ▸ List.mem_append_right incs hm)
    have hs0 : 0 ≤ car.baseSpeed + incSum incs :=
      add_nonneg hbase (incSum_nonneg incs hincamt)
    simp only [specCurrentSpeed, updateCurrentSpeed, heq]
    rw [List.foldl_append, foldl_applyModifier_incs incs _ hinc,
      foldl_applyModifier_decs decs _ hs0 hdec hdecamt,
      incSum_append, decSum_append, incSum_of_decs decs hdec, decSum_of_incs incs hinc]
    ring_nf

/-- C2 witness: the amended theorem applied to a concrete car whose
increase precedes its decrease, where both the fold and the single-floor
formula evaluate to 0. -/
theorem updateCurrentSpeed_fold_witness :
    (0 ≤ carIncFirst.baseSpeed ∧ ∀ m ∈ carIncFirst.speedModifiers, 0 ≤ m.amount) ∧
    specCurrentSpeed carIncFirst 0 ≤ (updateCurrentSpeed carIncFirst 0).currentSpeed :=
  ⟨⟨by decide, by decide⟩, (updateCurrentSpeed_fold carIncFirst 0 (by decide) (by decide)).2.2.1⟩

/-- Example car for the C7 statements: base 8 with an unexpired decrease
of 30 inserted before an unexpired increase of 7, so the decrease total 30
exceeds base plus increases 15. -/
def carOverDec : Car :=
  ⟨0, 8, 8, [⟨ModKind.decrease, 30, 0, 1000⟩, ⟨ModKind.increase, 7, 0, 1000⟩]⟩

/-- C7 counterexample: a set of decrease modifiers whose summed magnitude
exceeds base plus all increases does not force a recomputed speed of
exactly 0: the decrease clamps to 0 midway and the later increase lifts
the fold back to 7. -/
theorem overdecrease_not_zero_counterexample :
    carOverDec.baseSpeed + incSum (carOverDec.speedModifiers.filter (modAlive 0)) <
      decSum (carOverDec.speedModifiers.filter (modAlive 0)) ∧
    (updateCurrentSpeed carOverDec 0).currentSpeed = 7 := by
  refine ⟨?_, ?_⟩
  · simp [carOverDec, modAlive, incSum, decSum]
    norm_num
  · norm_num [updateCurrentSpeed, carOverDec, modAlive, applyModifier]

/-- C7 amended: the nonnegativity invariant does hold — with a nonnegative
base speed and nonnegative modifier magnitudes the current speed is
nonnegative after updateCurrentSpeed and after addSpeedModifier, is
untouched by updatePosition, and reset puts it at the nonnegative base
speed — but an over-sum of decreases yields exactly 0 only when no
increase follows a clamped decrease, not in general. -/
theorem currentSpeed_nonneg (car : Car) (now delta td b a d : ℚ) (ty : ModKind)
    (hbase : 0 ≤ car.baseSpeed)
    (hamt : ∀ m ∈ car.speedModifiers, 0 ≤ m.amount)
    (ha : 0 ≤ a) (hb : 0 ≤ b) :
    0 ≤ (updateCurrentSpeed car now).currentSpeed ∧
    0 ≤ (addSpeedModifier car ty a d now).currentSpeed ∧
    (updatePosition car delta td).currentSpeed = car.currentSpeed ∧
    0 ≤ (carReset b).currentSpeed := by
  refine ⟨?_, ?_, rfl, hb⟩
  · exact foldl_applyModifier_nonneg _ _ hbase
      (fun m hm => hamt m (List.mem_of_mem_filter hm))
  · have hall : ∀ m ∈ car.speedModifiers ++ [(⟨ty, a, now, d⟩ : SpeedModifier)],
        0 ≤ m.amount := by
      intro m hm
      rcases List.mem_append.mp hm with hl | hr
      · exact hamt m hl
      · simpa using (List.mem_singleton.mp hr) ▸ ha
    exact foldl_applyModifier_nonneg _ _ hbase
      (fun m hm => hall m (List.mem_of_mem_filter hm))

/-- C7 witness: the nonnegativity theorem applied to the over-decreased
example car. -/
theorem currentSpeed_nonneg_witness :
    (0 ≤ carOverDec.baseSpeed ∧ ∀ m ∈ carOverDec.speedModifiers, 0 ≤ m.amount) ∧
    0 ≤ (updateCurrentSpeed carOverDec 0).currentSpeed :=
  ⟨⟨by decide, by decide⟩,
    (currentSpeed_nonneg carOverDec 0 0 0 1 1 1 ModKind.increase (by decide) (by decide)
      (by norm_num) (by norm_num)).1⟩

/-- Repeated position updates against a fixed track distance, as issued
tick after tick by the game loop. -/
def advanceSeq (car : Car) (trackDistance : ℚ) (deltas : List ℚ) : Car :=
  deltas.foldl (fun c d => updatePosition c d trackDistance) car

theorem advanceSeq_le (deltas : List ℚ) (car : Car) (td : ℚ)
    (h : car.distanceCovered ≤ td) :
    (advanceSeq car td deltas).distanceCovered ≤ td := by
  induction deltas generalizing car with
  | nil => exact h
  | cons d rest ih => exact ih _ (min_le_right _ _)

/-- C4: updatePosition sets the distance covered to the minimum of the
advanced position and the track distance; when the increment overshoots,
the result is the track distance exactly, and no sequence of further
advances ever takes the distance past the track distance. -/
theorem updatePosition_clamps (car : Car) (delta td : ℚ) (deltas : List ℚ) :
    (updatePosition car delta td).distanceCovered =
      min (car.distanceCovered + car.currentSpeed * (delta / 1000)) td ∧
    (td ≤ car.distanceCovered + car.currentSpeed * (delta / 1000) →
      (updatePosition car delta td).distanceCovered = td) ∧
    (advanceSeq (updatePosition car delta td) td deltas).distanceCovered ≤ td := by
  refine ⟨rfl, ?_, ?_⟩
  · intro h
    simp [updatePosition, min_eq_right h]
  · exact advanceSeq_le _ _ _ (min_le_right _ _)

/-- C4 witness: a 1000 m track crossed by one huge advance lands on
exactly 1000, and stays there over further advances. -/
theorem updatePosition_clamps_witness :
    ((1000:ℚ) ≤ 0 + 50 * (1000000 / 1000)) ∧
    (updatePosition ⟨0, 50, 50, []⟩ 1000000 1000).distanceCovered = 1000 ∧
    (advanceSeq (updatePosition ⟨0, 50, 50, []⟩ 1000000 1000) 1000 [16, 16]).distanceCovered
      ≤ 1000 :=
  ⟨by norm_num,
    (updatePosition_clamps ⟨0, 50, 50, []⟩ 1000000 1000 [16, 16]).2.1 (by norm_num),
    (updatePosition_clamps ⟨0, 50, 50, []⟩ 1000000 1000 [16, 16]).2.2⟩

/-- C9 counterexample: addSpeedModifier on a car with no modifiers, passed
a negative magnitude, is not rejected: the modifier is appended and the
recomputed speed reflects it, so the call neither raises an error nor
leaves the car unchanged. -/
theorem addSpeedModifier_accepts_nonpositive_counterexample :
    (addSpeedModifier ⟨0, 10, 10, []⟩ ModKind.increase (-5) 1000 0).speedModifiers =
      [⟨ModKind.increase, -5, 0, 1000⟩] ∧
    (addSpeedModifier ⟨0, 10, 10, []⟩ ModKind.increase (-5) 1000 0).currentSpeed = 5 := by
  constructor
  · norm_num [addSpeedModifier, updateCurrentSpeed, modAlive]
  · norm_num [addSpeedModifier, updateCurrentSpeed, modAlive, applyModifier]

/-- C9 amended: addSpeedModifier performs no validation and never raises:
the modifier is appended unconditionally with the current clock reading as
start time, the immediate recompute pruning then drops it when its
duration is nonpositive (a nonpositive magnitude, however, is kept and
affects the speed). -/
theorem addSpeedModifier_appends (car : Car) (ty : ModKind) (a d now : ℚ) :
    (addSpeedModifier car ty a d now).speedModifiers =
      (car.speedModifiers ++ [(⟨ty, a, now, d⟩ : SpeedModifier)]).filter (modAlive now) ∧
    (d ≤ 0 → (addSpeedModifier car ty a d now).speedModifiers =
      car.speedModifiers.filter (modAlive now)) ∧
    (0 < d → (⟨ty, a, now, d⟩ : SpeedModifier) ∈
      (addSpeedModifier car ty a d now).speedModifiers) := by
  refine ⟨rfl, ?_, ?_⟩
  · intro hd
    show (car.speedModifiers ++ [(⟨ty, a, now, d⟩ : SpeedModifier)]).filter (modAlive now) = _
    rw [List.filter_append]
    have hdead : modAlive now ⟨ty, a, now, d⟩ = false := by
      simp only [modAlive, decide_eq_false_iff_not, not_lt]
      linarith
    simp [hdead]
  · intro hd
    show _ ∈ (car.speedModifiers ++ [(⟨ty, a, now, d⟩ : SpeedModifier)]).filter (modAlive now)
    rw [List.filter_append]
    have hlive : modAlive now ⟨ty, a, now, d⟩ = true := by
      simp only [modAlive, decide_eq_true_eq]
      linarith
    simp [hlive]

/-- C9 witness: the append theorem applied at a nonpositive duration
(pruned immediately) and at a positive one (kept). -/
theorem addSpeedModifier_appends_witness :
    ((-2:ℚ) ≤ 0 ∧
      (addSpeedModifier ⟨0, 10, 10, []⟩ ModKind.increase 3 (-2) 7).speedModifiers =
        (⟨0, 10, 10, []⟩ : Car).speedModifiers.filter (modAlive 7)) ∧
    ((0:ℚ) < 5 ∧ (⟨ModKind.increase, 3, 7, 5⟩ : SpeedModifier) ∈
      (addSpeedModifier ⟨0, 10, 10, []⟩ ModKind.increase 3 5 7).speedModifiers) :=
  ⟨⟨by norm_num, (addSpeedModifier_appends ⟨0, 10, 10, []⟩ ModKind.increase 3 (-2) 7).2.1
      (by norm_num)⟩,
   ⟨by norm_num, (addSpeedModifier_appends ⟨0, 10, 10, []⟩ ModKind.increase 3 5 7).2.2
      (by norm_num)⟩⟩

/-- C10 counterexample: a trigger point equal to 0 is not strictly within
the open interval (0, distance), yet both validateTrack and
validateCheckpointArray accept it without error, because their bounds
tests reject only points below 0 or at least the distance. -/
theorem validation_accepts_zero_point_counterexample :
    validateTrack ⟨1000, 50, [0], [100], 15, 2000, 10⟩ = Except.ok () ∧
    validateCheckpointArray [0] 1000 = Except.ok () := by
  constructor
  · simp [validateTrack, sortedLe]
    norm_num
  · simp [validateCheckpointArray, sortedLe]

/-- C10 amended: the validators accept exactly the configurations whose
trigger points lie in the half-open interval from 0 inclusive to the
distance exclusive — a point equal to 0 is accepted — and are in ascending
order; validateCheckpointArray additionally demands nonemptiness and no
duplicates, while validateTrack checks neither of those (its sortedness
test tolerates equal neighbours) but also demands positive distance,
speeds and window duration. -/
theorem validation_ok_characterization (t : Track) (l : List ℚ) (dd : ℚ) :
    (validateCheckpointArray l dd = Except.ok () ↔
      l ≠ [] ∧ (∀ c ∈ l, 0 ≤ c ∧ c < dd) ∧ l.Nodup ∧ sortedLe l = true) ∧
    (validateTrack t = Except.ok () ↔
      0 < t.distance ∧ 0 < t.averageSpeed ∧ 0 < t.speedIncrease ∧ 0 < t.speedDecrease ∧
      0 < t.pointDuration ∧
      (∀ p ∈ t.brakePoints, 0 ≤ p ∧ p < t.distance) ∧
      (∀ p ∈ t.straightPoints, 0 ≤ p ∧ p < t.distance) ∧
      sortedLe t.brakePoints = true ∧ sortedLe t.straightPoints = true) := by
  constructor
  · unfold validateCheckpointArray
    split_ifs with h1 h2 h3 h4
    · simp [h1]
    · refine iff_of_false (by simp) ?_
      rintro ⟨-, hb, -, -⟩
      simp only [List.any_eq_true, Bool.or_eq_true, decide_eq_true_eq] at h2
      obtain ⟨c, hc, hcc⟩ := h2
      rcases hcc with hlt | hge
      · exact absurd (hb c hc).1 (not_le.mpr hlt)
      · exact absurd (hb c hc).2 (not_lt.mpr hge)
    · refine iff_of_false (by simp) ?_
      rintro ⟨-, -, hnd, -⟩
      simp only [Bool.not_eq_true', decide_eq_false_iff_not] at h3
      exact h3 hnd
    · refine iff_of_false (by simp) ?_
      rintro ⟨-, -, -, hs⟩
      simp only [Bool.not_eq_true'] at h4
      rw [hs] at h4
      cases h4
    · simp only [List.any_eq_true, Bool.or_eq_true, decide_eq_true_eq, not_exists, not_or,
        push_cast] at h2
      push_neg at h2
      refine iff_of_true rfl ⟨h1, fun c hc => ⟨(h2 c hc).1, (h2 c hc).2⟩, ?_, ?_⟩
      · simpa using h3
      · simpa using h4
  · unfold validateTrack
    split_ifs with h1 h2 h3 h4 h5 h6 h7 h8 h9
    · exact iff_of_false (by simp) (fun h => absurd h.1 (not_lt.mpr h1))
    · exact iff_of_false (by simp) (fun h => absurd h.2.1 (not_lt.mpr h2))
    · exact iff_of_false (by simp) (fun h => absurd h.2.2.1 (not_lt.mpr h3))
    · exact iff_of_false (by simp) (fun h => absurd h.2.2.2.1 (not_lt.mpr h4))
    · exact iff_of_false (by simp) (fun h => absurd h.2.2.2.2.1 (not_lt.mpr h5))
    · refine iff_of_false (by simp) ?_
      rintro ⟨-, -, -, -, -, hb, -, -, -⟩
      simp only [List.any_eq_true, Bool.or_eq_true, decide_eq_true_eq] at h6
      obtain ⟨p, hp, hpp⟩ := h6
      rcases hpp with hlt | hge
      · exact absurd (hb p hp).1 (not_le.mpr hlt)
      · exact absurd (hb p hp).2 (not_lt.mpr hge)
    · refine iff_of_false (by simp) ?_
      rintro ⟨-, -, -, -, -, -, hs, -, -⟩
      simp only [List.any_eq_true, Bool.or_eq_true, decide_eq_true_eq] at h7
      obtain ⟨p, hp, hpp⟩ := h7
      rcases hpp with hlt | hge
      · exact absurd (hs p hp).1 (not_le.mpr hlt)
      · exact absurd (hs p hp).2 (not_lt.mpr hge)
    · refine iff_of_false (by simp) ?_
      rintro ⟨-, -, -, -, -, -, -, hsb, -⟩
      simp only [Bool.not_eq_true'] at h8
      rw [hsb] at h8
      cases h8
    · refine iff_of_false (by simp) ?_
      rintro ⟨-, -, -, -, -, -, -, -, hss⟩
      simp only [Bool.not_eq_true'] at h9
      rw [hss] at h9
      cases h9
    · simp only [List.any_eq_true, Bool.or_eq_true, decide_eq_true_eq] at h6 h7
      push_neg at h1 h2 h3 h4 h5 h6 h7
      refine iff_of_true rfl ⟨h1, h2, h3, h4, h5, ?_, ?_, by simpa using h8, by simpa using h9⟩
      · exact fun p hp => ⟨(h6 p hp).1, (h6 p hp).2⟩
      · exact fun p hp => ⟨(h7 p hp).1, (h7 p hp).2⟩

/-- Trigger test of the checkpoint scan: the car has reached the point and
its key is in neither the active Map nor the processed Set. -/
def qualifies (tm : TrackManager) (k : CtrlKind) (carDistance : ℚ) (p : ℚ) : Bool :=
  decide (carDistance ≥ p) && !activeHas tm (k, p) &&
    !(decide ((k, p) ∈ tm.processedCheckpoints))

theorem checkPointsAux_eq_find (tm : TrackManager) (k : CtrlKind) (d t : ℚ)
    (pts : List ℚ) :
    checkPointsAux tm k d t pts =
      match pts.find? (qualifies tm k d) with
      | some p =>
        (some ⟨k, p, t, tm.track.pointDuration⟩,
          { tm with
            activeCheckpoints :=
              tm.activeCheckpoints ++ [⟨k, p, t, tm.track.pointDuration⟩]
            processedCheckpoints := (k, p) :: tm.processedCheckpoints })
      | none => (none, tm) := by
  induction pts with
  | nil => rfl
  | cons p rest ih =>
    by_cases h : d ≥ p ∧ activeHas tm (k, p) = false ∧ (k, p) ∉ tm.processedCheckpoints
    · have hq : qualifies tm k d p = true := by
        simp only [qualifies, Bool.and_eq_true, Bool.not_eq_true', decide_eq_true_eq,
          decide_eq_false_iff_not]
        exact ⟨⟨h.1, h.2.1⟩, h.2.2⟩
      simp only [checkPointsAux, if_pos h, List.find?_cons_of_pos _ hq]
    · have hq : qualifies tm k d p = false := by
        by_contra hc
        rw [Bool.not_eq_false] at hc
        simp only [qualifies, Bool.and_eq_true, Bool.not_eq_true',
          decide_eq_true_eq, decide_eq_false_iff_not] at hc
        exact h ⟨hc.1.1, hc.1.2, hc.2⟩
      have hq' : ¬ (qualifies tm k d p = true) := by simp [hq]
      simp only [checkPointsAux, if_neg h, List.find?_cons_of_neg _ hq']
      exact ih

/-- C5 counterexample: a single arrival call at position 300 against brake
points 100 and 200 (both pending) returns only the trigger at 100; the
trigger at 200, although newly qualifying at that position, is neither
returned nor activated nor marked processed by that call. -/
theorem checkBrakePoints_only_first_counterexample :
    (checkBrakePoints (initTM ⟨1000, 50, [100, 200], [300], 15, 2000, 10⟩) 300 0).1 =
      some ⟨CtrlKind.brake, 100, 0, 2000⟩ ∧
    (300:ℚ) ≥ 200 ∧
    (CtrlKind.brake, (200:ℚ)) ∉
      (checkBrakePoints (initTM ⟨1000, 50, [100, 200], [300], 15, 2000, 10⟩) 300
        0).2.processedCheckpoints ∧
    activeHas
      (checkBrakePoints (initTM ⟨1000, 50, [100, 200], [300], 15, 2000, 10⟩) 300 0).2
      (CtrlKind.brake, 200) = false := by
  refine ⟨?_, by norm_num, ?_, ?_⟩
  · norm_num [checkBrakePoints, checkPointsAux, initTM, activeHas]
  · norm_num [checkBrakePoints, checkPointsAux, initTM, activeHas, ckey]
  · norm_num [checkBrakePoints, checkPointsAux, initTM, activeHas, ckey]

/-- C5 amended: one arrival call fires at most one trigger per kind — the
first point in configured array order that the car has reached and that is
neither active nor processed — and marks exactly that one processed; later
crossed points stay pending and fire only on subsequent calls. -/
theorem checkPoints_fire_first_qualifying (tm : TrackManager) (d t : ℚ) :
    (checkBrakePoints tm d t).1 =
      (tm.track.brakePoints.find? (qualifies tm CtrlKind.brake d)).map
        (fun p => ⟨CtrlKind.brake, p, t, tm.track.pointDuration⟩) ∧
    (checkBrakePoints tm d t).2.processedCheckpoints =
      (match tm.track.brakePoints.find? (qualifies tm CtrlKind.brake d) with
        | some p => (CtrlKind.brake, p) :: tm.processedCheckpoints
        | none => tm.processedCheckpoints) ∧
    (checkStraightPoints tm d t).1 =
      (tm.track.straightPoints.find? (qualifies tm CtrlKind.acceleration d)).map
        (fun p => ⟨CtrlKind.acceleration, p, t, tm.track.pointDuration⟩) ∧
    (checkStraightPoints tm d t).2.processedCheckpoints =
      (match tm.track.straightPoints.find? (qualifies tm CtrlKind.acceleration d) with
        | some p => (CtrlKind.acceleration, p) :: tm.processedCheckpoints
        | none => tm.processedCheckpoints) := by
  refine ⟨?_, ?_, ?_, ?_⟩ <;>
    (first
      | (show (checkPointsAux tm CtrlKind.brake d t tm.track.brakePoints).1 = _
         rw [checkPointsAux_eq_find]
         cases tm.track.brakePoints.find? (qualifies tm CtrlKind.brake d) <;> rfl)
      | (show (checkPointsAux tm CtrlKind.brake d t tm.track.brakePoints).2.processedCheckpoints = _
         rw [checkPointsAux_eq_find]
         cases tm.track.brakePoints.find? (qualifies tm CtrlKind.brake d) <;> rfl)
      | (show (checkPointsAux tm CtrlKind.acceleration d t tm.track.straightPoints).1 = _
         rw [checkPointsAux_eq_find]
         cases tm.track.straightPoints.find? (qualifies tm CtrlKind.acceleration d) <;> rfl)
      | (show (checkPointsAux tm CtrlKind.acceleration d t tm.track.straightPoints).2.processedCheckpoints = _
         rw [checkPointsAux_eq_find]
         cases tm.track.straightPoints.find? (qualifies tm CtrlKind.acceleration d) <;> rfl))

/-- Example manager for the C8 statements: two brake checkpoints active at
once (a configuration-anomaly state), the first inserted one activated at
0 and the second at 10, both with a 2000 ms window, queried at time 20. -/
def tmOverlap : TrackManager :=
  ⟨⟨1000, 50, [100, 200], [300], 15, 2000, 10⟩,
    [⟨CtrlKind.brake, 100, 0, 2000⟩, ⟨CtrlKind.brake, 200, 10, 2000⟩],
    [(CtrlKind.brake, 100), (CtrlKind.brake, 200)]⟩

/-- C8 counterexample: with two simultaneously active brake triggers
activated at 0 and at 10, getControlStates reports the one activated at 10
— the later activation timestamp — because its write loop lets the last
Map entry win, while getRemainingDuration answers from the earlier one
(2000 - 20 = 1980). So not every per-kind query reports the
earlier-activated trigger. -/
theorem getControlStates_later_wins_counterexample :
    (getControlStates tmOverlap 20).1.brake.activatedAt = 10 ∧
    getRemainingDuration tmOverlap CtrlKind.brake 20 = 1980 ∧
    ¬ (getControlStates tmOverlap 20).1.brake.activatedAt = 0 := by
  refine ⟨?_, ?_, ?_⟩
  · norm_num [getControlStates, tmOverlap, cpAlive, applyCS]
  · norm_num [getRemainingDuration, tmOverlap, findKind]
  · norm_num [getControlStates, tmOverlap, cpAlive, applyCS]

/-- C8 amended: when two triggers of the same kind are simultaneously
active, the queries disagree on the representative: getRemainingDuration
and isControlActive answer from the first-inserted (hence, under monotone
firing times, earlier-activated) checkpoint, while getControlStates
reports the last-inserted one's activation timestamp and duration. -/
theorem overlap_tiebreak (tr : Track) (proc : List (CtrlKind × ℚ)) (k : CtrlKind)
    (now : ℚ) (c1 c2 : CheckpointEvent)
    (h1 : c1.ctype = k) (h2 : c2.ctype = k)
    (ha1 : now - c1.activatedAt < c1.duration)
    (ha2 : now - c2.activatedAt < c2.duration) :
    getRemainingDuration ⟨tr, [c1, c2], proc⟩ k now =
      max 0 (c1.duration - (now - c1.activatedAt)) ∧
    isControlActive ⟨tr, [c1, c2], proc⟩ k now = true ∧
    (getControlStates ⟨tr, [c1, c2], proc⟩ now).1.get k =
      ⟨true, c2.activatedAt, c2.duration⟩ := by
  refine ⟨?_, ?_, ?_⟩
  · simp [getRemainingDuration, findKind, h1]
  · simp [isControlActive, findKind, h1, ha1]
  · cases k
    · simp [getControlStates, cpAlive, ha1, ha2, applyCS, h1, h2, ControlStates.get]
    · simp [getControlStates, cpAlive, ha1, ha2, applyCS, h1, h2, ControlStates.get]

/-- C8 witness: the tie-break theorem applied to the concrete overlap
state, showing getControlStates returning the later activation 10. -/
theorem overlap_tiebreak_witness :
    ((⟨CtrlKind.brake, 100, 0, 2000⟩ : CheckpointEvent).ctype = CtrlKind.brake ∧
      (⟨CtrlKind.brake, 200, 10, 2000⟩ : CheckpointEvent).ctype = CtrlKind.brake ∧
      (20:ℚ) - 0 < 2000 ∧ (20:ℚ) - 10 < 2000) ∧
    (getControlStates
      ⟨⟨1000, 50, [100, 200], [300], 15, 2000, 10⟩,
        [⟨CtrlKind.brake, 100, 0, 2000⟩, ⟨CtrlKind.brake, 200, 10, 2000⟩],
        [(CtrlKind.brake, 100), (CtrlKind.brake, 200)]⟩ 20).1.get CtrlKind.brake =
      ⟨true, 10, 2000⟩ :=
  ⟨⟨rfl, rfl, by norm_num, by norm_num⟩,
    (overlap_tiebreak ⟨1000, 50, [100, 200], [300], 15, 2000, 10⟩
      [(CtrlKind.brake, 100), (CtrlKind.brake, 200)] CtrlKind.brake 20
      ⟨CtrlKind.brake, 100, 0, 2000⟩ ⟨CtrlKind.brake, 200, 10, 2000⟩
      rfl rfl (by norm_num) (by norm_num)).2.2⟩

theorem checkPointsAux_processed_mono (tm : TrackManager) (k : CtrlKind) (d t : ℚ)
    (pts : List ℚ) :
    ∀ x ∈ tm.processedCheckpoints,
      x ∈ (checkPointsAux tm k d t pts).2.processedCheckpoints := by
  rw [checkPointsAux_eq_find]
  cases pts.find? (qualifies tm k d) with
  | none => simp
  | some p =>
    intro x hx
    exact List.mem_cons_of_mem _ hx

theorem checkPointsAux_emit (tm : TrackManager) (k : CtrlKind) (d t : ℚ)
    (pts : List ℚ) (e : CheckpointEvent) :
    (checkPointsAux tm k d t pts).1 = some e →
      ckey e ∉ tm.processedCheckpoints ∧
      ckey e ∈ (checkPointsAux tm k d t pts).2.processedCheckpoints := by
  rw [checkPointsAux_eq_find]
  cases hf : pts.find? (qualifies tm k d) with
  | none => simp
  | some p =>
    intro he
    have hq := List.find?_some hf
    simp only [qualifies, Bool.and_eq_true, Bool.not_eq_true',
      decide_eq_true_eq, decide_eq_false_iff_not] at hq
    have he' : e = ⟨k, p, t, tm.track.pointDuration⟩ := by
      simpa using he.symm
    subst he'
    exact ⟨hq.2, List.mem_cons_self _ _⟩

theorem stepTM_processed_mono (tm : TrackManager) (op : TMOp) :
    ∀ x ∈ tm.processedCheckpoints, x ∈ (stepTM tm op).1.processedCheckpoints := by
  cases op with
  | checkBrake pos now =>
    exact checkPointsAux_processed_mono tm CtrlKind.brake pos now tm.track.brakePoints
  | checkStraight pos now =>
    exact checkPointsAux_processed_mono tm CtrlKind.acceleration pos now
      tm.track.straightPoints
  | controlStates now => exact fun x hx => hx
  | deactivate k => exact fun x hx => hx

theorem stepTM_emit (tm : TrackManager) (op : TMOp) (e : CheckpointEvent) :
    (stepTM tm op).2 = some e →
      ckey e ∉ tm.processedCheckpoints ∧
      ckey e ∈ (stepTM tm op).1.processedCheckpoints := by
  cases op with
  | checkBrake pos now =>
    exact checkPointsAux_emit tm CtrlKind.brake pos now tm.track.brakePoints e
  | checkStraight pos now =>
    exact checkPointsAux_emit tm CtrlKind.acceleration pos now tm.track.straightPoints e
  | controlStates now => intro h; cases h
  | deactivate k => intro h; cases h

theorem runTM_events_fresh (ops : List TMOp) : ∀ tm : TrackManager,
    (((runTM tm ops).2).map ckey).Nodup ∧
    ∀ x ∈ ((runTM tm ops).2).map ckey, x ∉ tm.processedCheckpoints := by
  induction ops with
  | nil => simp [runTM]
  | cons op rest ih =>
    intro tm
    obtain ⟨ihn, ihf⟩ := ih (stepTM tm op).1
    cases h : (stepTM tm op).2 with
    | none =>
      constructor
      · simpa [runTM, h] using ihn
      · intro x hx hmem
        simp only [runTM, h, Option.toList_none, List.nil_append] at hx
        exact ihf x hx (stepTM_processed_mono tm op x hmem)
    | some e =>
      obtain ⟨hf, hm⟩ := stepTM_emit tm op e h
      constructor
      · simp only [runTM, h, Option.toList_some, List.singleton_append, List.map_cons,
          List.nodup_cons]
        exact ⟨fun hmm => ihf (ckey e) hmm hm, ihn⟩
      · intro x hx
        simp only [runTM, h, Option.toList_some, List.singleton_append, List.map_cons,
          List.mem_cons] at hx
        rcases hx with rfl | hx
        · exact hf
        · exact fun hmem => ihf x hx (stepTM_processed_mono tm op x hmem)

/-- C1: starting from a fresh TrackManager, over any sequence of
checkpoint-arrival calls (at arbitrary positions and times), control-state
refreshes (which expire windows) and deactivations, with no reset, the
keys (kind, distance) of the events returned as newly fired contain no
duplicate: each configured trigger fires at most once, repeated or
re-crossing arrivals are idempotent, and a fired trigger never fires again
after expiry or deactivation. -/
theorem trigger_fires_at_most_once (track : Track) (ops : List TMOp) :
    (((runTM (initTM track) ops).2).map ckey).Nodup :=
  (runTM_events_fresh ops (initTM track)).1

theorem getRemainingDuration_nonneg (tm : TrackManager) (k : CtrlKind) (now : ℚ) :
    0 ≤ getRemainingDuration tm k now := by
  unfold getRemainingDuration
  cases findKind tm.activeCheckpoints k with
  | none => exact le_refl 0
  | some e => exact le_max_left 0 _

theorem findKind_none_of_ne (l : List CheckpointEvent) (k : CtrlKind)
    (h : ∀ e ∈ l, e.ctype ≠ k) : findKind l k = none := by
  induction l with
  | nil => rfl
  | cons e rest ih =>
    have he := h e (List.mem_cons_self e rest)
    simp only [findKind, if_neg he]
    exact ih (fun x hx => h x (List.mem_cons_of_mem e hx))

theorem KindMap.get_set (m : KindMap α) (k : CtrlKind) (v : α) :
    (m.set k v).get k = v := by
  cases k <;> rfl

/-- After deactivateControl followed by the getControlStates cleanup, no
checkpoint of the deactivated kind survives, so the kind reads inactive at
every later time. -/
theorem isControlActive_after_deactivate (tm : TrackManager) (k : CtrlKind) (t u : ℚ) :
    isControlActive (getControlStates (deactivateControl tm k) t).2 k u = false := by
  have hall : ∀ e ∈ (deactivateControl tm k).activeCheckpoints.filter (cpAlive t),
      e.ctype ≠ k := by
    intro e he
    have he' := List.mem_of_mem_filter he
    simp only [deactivateControl, List.mem_filter, decide_eq_true_eq] at he'
    exact he'.2
  simp only [isControlActive, getControlStates]
  rw [findKind_none_of_ne _ k hall]

/-- C3: a press while the kind is active, during a running race and past
the 100 ms cooldown, appends exactly one increase modifier whose magnitude
is the configured speedIncrease times 1.5 when the reaction time (against
the control's activation timestamp) is at most 200 ms, times 1.2 when at
most 500 ms and times 1 otherwise, and whose duration is the window's
remaining time at the press (not the full window); the control is
deactivated at once, so the kind reads inactive at every later time and a
second press of the same kind can never add another increase modifier. -/
theorem green_press_boost (s : HookState) (k : CtrlKind) (t : ℚ)
    (hcool : 100 ≤ t - s.cooldown.get k)
    (hrun : s.status = GameStatus.running)
    (hact : isControlActive s.tm k t = true) :
    (handleControlInput s k t).car.speedModifiers =
      (s.car.speedModifiers ++
        [(⟨ModKind.increase,
            s.track.speedIncrease *
              (if t - (s.activeControls.get k).activatedAt ≤ 200 then 3/2
               else if t - (s.activeControls.get k).activatedAt ≤ 500 then 6/5 else 1),
            t, getRemainingDuration s.tm k t⟩ : SpeedModifier)]).filter (modAlive t) ∧
    (∀ u, isControlActive (handleControlInput s k t).tm k u = false) ∧
    (∀ u, ∀ mo ∈ (handleControlInput (handleControlInput s k t) k u).car.speedModifiers,
      mo.mtype = ModKind.increase →
        mo ∈ (handleControlInput s k t).car.speedModifiers) := by
  have hnc : ¬(t - s.cooldown.get k < 100) := not_lt.mpr hcool
  have hns : ¬(s.status ≠ GameStatus.running) := by simp [hrun]
  have hmax : max 0 (getRemainingDuration s.tm k t) = getRemainingDuration s.tm k t :=
    max_eq_right (getRemainingDuration_nonneg s.tm k t)
  have hstep : handleControlInput s k t =
      { s with
        car := addSpeedModifier s.car ModKind.increase
          (s.track.speedIncrease *
            (if t - (s.activeControls.get k).activatedAt ≤ 200 then 3/2
             else if t - (s.activeControls.get k).activatedAt ≤ 500 then 6/5 else 1))
          (max 0 (getRemainingDuration s.tm k t)) t
        tm := (getControlStates (deactivateControl s.tm k) t).2
        activeControls := (getControlStates (deactivateControl s.tm k) t).1
        cooldown := s.cooldown.set k t } := by
    simp only [handleControlInput, if_neg hnc, if_neg hns, hact, if_true]
  refine ⟨?_, ?_, ?_⟩
  · rw [hstep]
    simp only [addSpeedModifier, updateCurrentSpeed, hmax]
  · intro u
    rw [hstep]
    exact isControlActive_after_deactivate s.tm k t u
  · intro u mo hmo hinc
    have hactu : isControlActive (handleControlInput s k t).tm k u = false := by
      rw [hstep]
      exact isControlActive_after_deactivate s.tm k t u
    by_cases hc2 : u - (handleControlInput s k t).cooldown.get k < 100
    · rw [handleControlInput, if_pos hc2] at hmo
      exact hmo
    · by_cases hs2 : (handleControlInput s k t).status ≠ GameStatus.running
      · rw [handleControlInput, if_neg hc2, if_pos hs2] at hmo
        exact hmo
      · have hact2 : ¬(isControlActive (handleControlInput s k t).tm k u = true) := by
          simp [hactu]
        by_cases hp2 : penaltyActive (handleControlInput s k t) k u = true
        · rw [handleControlInput, if_neg hc2, if_neg hs2, if_neg hact2, if_pos hp2] at hmo
          exact hmo
        · rw [handleControlInput, if_neg hc2, if_neg hs2, if_neg hact2, if_neg hp2] at hmo
          simp only [addSpeedModifier, updateCurrentSpeed] at hmo
          have hmo' := List.mem_of_mem_filter hmo
          rcases List.mem_append.mp hmo' with hin | hnew
          · exact hin
          · have : mo = ⟨ModKind.decrease,
                (handleControlInput s k t).track.speedDecrease, u, 1000⟩ := by
              simpa using hnew
            rw [this] at hinc
            cases hinc

/-- Example hook state for the C3 witness: race running, one active brake
checkpoint fired at time 0 with a 2000 ms window, no cooldowns and no
penalties pending, pressed at time 150. -/
def greenState : HookState :=
  ⟨GameStatus.running, ⟨1000, 50, [100, 200], [300], 15, 2000, 10⟩, ⟨0, 50, 50, []⟩,
    ⟨⟨1000, 50, [100, 200], [300], 15, 2000, 10⟩, [⟨CtrlKind.brake, 100, 0, 2000⟩],
      [(CtrlKind.brake, 100)]⟩,
    ⟨⟨true, 0, 2000⟩, ⟨false, 0, 0⟩⟩, ⟨0, 0⟩, ⟨none, none⟩⟩

/-- C3 witness: the green-press theorem applied to the concrete state —
a 150 ms reaction lands in the 1.2x tier with the 1850 ms remaining
window. -/
theorem green_press_boost_witness :
    (100 ≤ (150:ℚ) - greenState.cooldown.get CtrlKind.brake ∧
      greenState.status = GameStatus.running ∧
      isControlActive greenState.tm CtrlKind.brake 150 = true) ∧
    (handleControlInput greenState CtrlKind.brake 150).car.speedModifiers =
      (greenState.car.speedModifiers ++
        [(⟨ModKind.increase,
            greenState.track.speedIncrease *
              (if (150:ℚ) - (greenState.activeControls.get CtrlKind.brake).activatedAt ≤ 200
               then 3/2
               else if (150:ℚ) -
                   (greenState.activeControls.get CtrlKind.brake).activatedAt ≤ 500
               then 6/5 else 1),
            150, getRemainingDuration greenState.tm CtrlKind.brake 150⟩ :
          SpeedModifier)]).filter (modAlive 150) :=
  ⟨⟨by norm_num [greenState, KindMap.get], rfl,
      by norm_num [greenState, isControlActive, findKind]⟩,
    (green_press_boost greenState CtrlKind.brake 150
      (by norm_num [greenState, KindMap.get]) rfl
      (by norm_num [greenState, isControlActive, findKind])).1⟩

/-- C6: a press while the kind is not active, during a running race, past
the cooldown and with no penalty pending for the kind, appends exactly one
decrease modifier of the configured penalty magnitude with duration
exactly 1000 ms and records the penalty time; any further penalty-eligible
press of the same kind strictly before the 1000 ms penalty elapses (be it
inside the 100 ms cooldown or blocked by the pending penalty) leaves the
whole state unchanged, so no second modifier is added. -/
theorem red_press_penalty (s : HookState) (k : CtrlKind) (t : ℚ)
    (hcool : 100 ≤ t - s.cooldown.get k)
    (hrun : s.status = GameStatus.running)
    (hact : isControlActive s.tm k t = false)
    (hpen : penaltyActive s k t = false) :
    (handleControlInput s k t).car.speedModifiers =
      (s.car.speedModifiers ++
        [(⟨ModKind.decrease, s.track.speedDecrease, t, 1000⟩ : SpeedModifier)]).filter
        (modAlive t) ∧
    (handleControlInput s k t).penaltyAppliedAt.get k = some t ∧
    (∀ u, isControlActive (handleControlInput s k t).tm k u = false → u < t + 1000 →
      handleControlInput (handleControlInput s k t) k u = handleControlInput s k t) := by
  have hnc : ¬(t - s.cooldown.get k < 100) := not_lt.mpr hcool
  have hns : ¬(s.status ≠ GameStatus.running) := by simp [hrun]
  have hact' : ¬(isControlActive s.tm k t = true) := by simp [hact]
  have hpen' : ¬(penaltyActive s k t = true) := by simp [hpen]
  have hstep : handleControlInput s k t =
      { s with
        car := addSpeedModifier s.car ModKind.decrease s.track.speedDecrease 1000 t
        penaltyAppliedAt := s.penaltyAppliedAt.set k (some t)
        cooldown := s.cooldown.set k t } := by
    rw [handleControlInput, if_neg hnc, if_neg hns, if_neg hact', if_neg hpen']
  refine ⟨?_, ?_, ?_⟩
  · rw [hstep]
    rfl
  · rw [hstep]
    exact KindMap.get_set s.penaltyAppliedAt k (some t)
  · intro u hactu hu
    by_cases hc2 : u - (handleControlInput s k t).cooldown.get k < 100
    · rw [handleControlInput, if_pos hc2]
    · have hs2 : ¬((handleControlInput s k t).status ≠ GameStatus.running) := by
        rw [hstep]
        simpa using hrun
      have hact2 : ¬(isControlActive (handleControlInput s k t).tm k u = true) := by
        simp [hactu]
      have hp2 : penaltyActive (handleControlInput s k t) k u = true := by
        rw [hstep]
        simp only [penaltyActive, KindMap.get_set]
        exact decide_eq_true hu
      rw [handleControlInput, if_neg hc2, if_neg hs2, if_neg hact2, if_pos hp2]

/-- Example hook state for the C6 witness: race running, no checkpoint
ever fired, no cooldowns and no penalties pending, pressed at time 150 and
again at time 400. -/
def redState : HookState :=
  ⟨GameStatus.running, ⟨1000, 50, [100, 200], [300], 15, 2000, 10⟩, ⟨0, 50, 50, []⟩,
    initTM ⟨1000, 50, [100, 200], [300], 15, 2000, 10⟩,
    ⟨⟨false, 0, 0⟩, ⟨false, 0, 0⟩⟩, ⟨0, 0⟩, ⟨none, none⟩⟩

/-- C6 witness: the red-press theorem applied to the concrete state — one
decrease modifier of 10 m/s for 1000 ms is added at 150, and the second
red press at 400 (before 1150) changes nothing. -/
theorem red_press_penalty_witness :
    (100 ≤ (150:ℚ) - redState.cooldown.get CtrlKind.brake ∧
      redState.status = GameStatus.running ∧
      isControlActive redState.tm CtrlKind.brake 150 = false ∧
      penaltyActive redState CtrlKind.brake 150 = false) ∧
    (handleControlInput redState CtrlKind.brake 150).car.speedModifiers =
      (redState.car.speedModifiers ++
        [(⟨ModKind.decrease, redState.track.speedDecrease, 150, 1000⟩ :
          SpeedModifier)]).filter (modAlive 150) ∧
    handleControlInput (handleControlInput redState CtrlKind.brake 150) CtrlKind.brake 400 =
      handleControlInput redState CtrlKind.brake 150 := by
  have h := red_press_penalty redState CtrlKind.brake 150
    (by norm_num [redState, KindMap.get]) rfl rfl rfl
  have htm : isControlActive (handleControlInput redState CtrlKind.brake 150).tm
      CtrlKind.brake 400 = false := by
    norm_num [handleControlInput, redState, penaltyActive, KindMap.get, KindMap.set,
      isControlActive, findKind, initTM]
  exact ⟨⟨by norm_num [redState, KindMap.get], rfl, rfl, rfl⟩, h.1,
    h.2.2 400 htm (by norm_num)⟩

end F1
